import Mathlib

/-!
Verification of the EvacAI routing core (`src/backend/path_planner.py`,
`src/backend/main.py`) against its natural-language specification.

Modelling conventions:
* Python `dict`s are ordered association lists (`List (String × _)`);
  `defaultdict(list)` lookup is `adj` (pure read) or `dictGet` (the variant
  that inserts a missing key with an empty list, as `defaultdict` does).
* `str.lower()` is `lowerName` (ASCII case folding, as all node names in the
  data files are ASCII).
* Floating-point coordinates and distances are real numbers; `math.dist` is
  the Euclidean distance, `math.atan2` is modelled through `Complex.arg`.
* The recursive DFS `find_all_paths` is embedded with an explicit fuel
  parameter (structural recursion); the wrapper `find_all_paths` supplies
  fuel larger than the recursion depth the Python code can reach on the
  normalized graphs produced by `load_building_layout`.
* `describe_route` formats steps as strings which the optimizer re-parses
  with regular expressions; the round trip is modelled by the structured
  `Step` type carrying exactly the fields the regex recovers (direction
  label, destination, one-decimal distance).
-/

namespace EvacAI

/-- ASCII model of Python `str.lower()` (node names in the layouts are ASCII). -/
def lowerName (s : String) : String :=
  String.mk (s.data.map Char.toLower)

/-- Model of Python `str.startswith` via character lists. -/
def pyStartsWith (s p : String) : Bool :=
  p.data.isPrefixOf s.data

/-- A Python dict `{name: [neighbor, ...]}` as an ordered association list. -/
abbrev Graph := List (String × List String)

/-- Dict lookup (no default-insertion): first entry with the given key. -/
def dictFind (G : Graph) (k : String) : Option (List String) :=
  (G.find? (fun p => p.1 == k)).map Prod.snd

/-- The neighbor list `graph[k]` as read by the DFS: missing keys read as `[]`
(the value a fresh `defaultdict(list)` entry holds). -/
def adj (G : Graph) (k : String) : List String :=
  (dictFind G k).getD []

/-- All names occurring in some adjacency list (the values of the dict). -/
def valueNames (G : Graph) : List String :=
  (G.map Prod.snd).flatten

/-- The node set in the spec's sense: names participating in at least one
edge, i.e. keys with a nonempty neighbor list together with all neighbors. -/
def graphNodes (G : Graph) : List String :=
  (G.filter (fun p => !p.2.isEmpty)).map Prod.fst ++ valueNames G

/-- The dict `graph` built by `load_building_layout` stores lower-cased names only;
this decidable check captures that all neighbor entries are lower-case. -/
def graph_normalized (G : Graph) : Bool :=
  G.all (fun p => p.2.all (fun nb => lowerName nb == nb))

/-- Embedding of `find_all_paths(graph, start, end, path, visited)` from
`src/backend/path_planner.py` lines 67-83, with an explicit fuel bounding the
recursion depth.  Each call lower-cases `start` and `end`, extends the path
by value, adds the node to `visited`, returns the single extended path when
start equals end, and otherwise recurses into every not-yet-visited neighbor
(each sibling receiving its own copy of the visited set). -/
def findAllPathsAux (G : Graph) : Nat → String → String → List String → List String →
    List (List String)
  | 0, _, _, _, _ => []
  | fuel + 1, start, stop, path, visited =>
    let s := lowerName start
    let path2 := path ++ [s]
    let vis2 := s :: visited
    if s = lowerName stop then [path2]
    else
      ((adj G s).filter (fun nb => !(vis2.contains nb))).flatMap
        (fun nb => findAllPathsAux G fuel nb stop path2 vis2)

/-- Top-level `find_all_paths(graph, start, end)`.  On the normalized graphs
the backend builds, the DFS recursion depth is bounded by the number of
distinct names occurring in adjacency lists plus one, so this fuel is never
exhausted. -/
def find_all_paths (G : Graph) (start stop : String) : List (List String) :=
  findAllPathsAux G ((valueNames G).length + 1) start stop [] []

/-- Reading `graph[k]` on the `defaultdict(list)` built by `load_building_layout`:
reading a missing key inserts it with an empty list.  Returns the neighbor
list together with the (possibly grown) dict. -/
def dictGet (G : Graph) (k : String) : List String × Graph :=
  match dictFind G k with
  | some l => (l, G)
  | none => ([], G ++ [(k, [])])

/-- Variant of `find_all_paths` with the `defaultdict` state threaded through, exactly
as the Python runtime executes it: `graph[start]` is read once per call (and
may insert `start`), then each unvisited neighbor is explored in order, each
recursive call acting on the dict left by the previous one. -/
def findAllPathsDAux : Nat → Graph → String → String → List String →
    List String → List (List String) × Graph
  | 0, G, _, _, _, _ => ([], G)
  | fuel + 1, G, start, stop, path, visited =>
    let s := lowerName start
    let path2 := path ++ [s]
    let vis2 := s :: visited
    if s = lowerName stop then ([path2], G)
    else
      let read := dictGet G s
      read.1.foldl
        (fun acc nb =>
          if vis2.contains nb then acc
          else
            let r := findAllPathsDAux fuel acc.2 nb stop path2 vis2
            (acc.1 ++ r.1, r.2))
        ([], read.2)

/-- Top-level stateful `find_all_paths`, returning the paths and the dict as
it stands after the call. -/
def find_all_pathsD (G : Graph) (start stop : String) :
    List (List String) × Graph :=
  findAllPathsDAux ((valueNames G).length + 1) G start stop [] []

/-- Embedding of `is_safe_path(path, blocked_nodes)` from `path_planner.py` lines 88-89:
`all(node not in blocked_nodes for node in path)`. -/
def is_safe_path (path blocked_nodes : List String) : Bool :=
  path.all (fun node => !(blocked_nodes.contains node))

/-- A coordinate pair, in centimeters. -/
abbrev Pos := ℝ × ℝ

/-- The `positions` dict `{name: (x, y)}` as an ordered association list. -/
abbrev PosMap := List (String × Pos)

def posFind (m : PosMap) (k : String) : Option Pos :=
  (m.find? (fun p => p.1 == k)).map Prod.snd

/-- Lookup `positions[k]`; Python raises `KeyError` on a missing key, which the
routing code only ever avoids by prior membership checks, so the default is
never observable along the modelled control paths. -/
noncomputable def posGet (m : PosMap) (k : String) : Pos :=
  (posFind m k).getD (0, 0)

/-- Membership test `k in positions`. -/
def posHas (m : PosMap) (k : String) : Bool :=
  (posFind m k).isSome

/-- Embedding of `math.dist(p, q)`: Euclidean distance in the plane. -/
noncomputable def mathDist (p q : Pos) : ℝ :=
  Real.sqrt ((p.1 - q.1) ^ 2 + (p.2 - q.2) ^ 2)

/-- Embedding of `get_total_distance(route, positions_map)` from `path_planner.py` lines
85-86: the sum over consecutive pairs of the straight-line distance between
their coordinates. -/
noncomputable def get_total_distance (route : List String) (m : PosMap) : ℝ :=
  ((route.zip route.tail).map (fun ab => mathDist (posGet m ab.1) (posGet m ab.2))).sum

open Classical in
/-- The fold at the heart of Python's `min(xs, key=k)` on the nonempty list
`x :: xs`: keep the current best, replacing it only on a strictly smaller
key, so the first minimizer wins ties. -/
noncomputable def python_min1 (key : List String → ℝ) (x : List String)
    (xs : List (List String)) : List String :=
  xs.foldl (fun best y => if key y < key best then y else best) x

/-- Embedding of `min(xs, key=k)` as used on `safe_paths`; `none` models the `ValueError`
Python raises on an empty list (the callers guard against it). -/
noncomputable def python_min (key : List String → ℝ) :
    List (List String) → Option (List String)
  | [] => none
  | x :: xs => some (python_min1 key x xs)

/-- Result of a route computation: either an error payload `{"error": msg}`
or a chosen path with its total distance. -/
inductive RouteOutcome where
  | err (msg : String)
  | ok (path : List String) (dist : ℝ)

/-- Core of the `/safe-move` endpoint (`main.py` lines 272-292), after the
registration/layout/location/destination guards: enumerate all paths, filter
by safety, and either fail with the single blocked-paths error or return the
minimum-distance safe path.  Note there is no separate branch for an empty
enumeration. -/
noncomputable def safe_move_route (G : Graph) (pos : PosMap)
    (threats : List String) (current destination : String) : RouteOutcome :=
  let all_paths := find_all_paths G current destination
  match all_paths.filter (fun p => is_safe_path p threats) with
  | [] => .err "All paths from current location are blocked due to threats."
  | x :: xs =>
    let best := python_min1 (fun p => get_total_distance p pos) x xs
    .ok best (get_total_distance best pos)

/-- Core of `/auto-reroute` with an explicit destination (`main.py` lines
175-202): an empty enumeration and an all-blocked enumeration are reported
through different error messages. -/
noncomputable def auto_reroute_route (G : Graph) (pos : PosMap)
    (threats : List String) (current destination : String) : RouteOutcome :=
  let all_paths := find_all_paths G current destination
  if all_paths.isEmpty then .err "No paths found."
  else
    match all_paths.filter (fun p => is_safe_path p threats) with
    | [] => .err "All paths are blocked due to threats."
    | x :: xs =>
      let best := python_min1 (fun p => get_total_distance p pos) x xs
      .ok best (get_total_distance best pos)

/-- Python float modulo `x % y` (sign of the divisor): `x - y * ⌊x / y⌋`. -/
noncomputable def pymod (x y : ℝ) : ℝ := x - y * ⌊x / y⌋

open Classical in
/-- The if/elif chain of `angle_to_direction` (`path_planner.py` lines 99-115),
in source order, applied to the already-normalized angle. -/
noncomputable def angleBucket (a : ℝ) : String :=
  if a < 45 ∨ a > 315 then "keep walking straight"
  else if 30 ≤ a ∧ a < 60 then "slightly right"
  else if 60 ≤ a ∧ a < 120 then "turn right"
  else if 120 ≤ a ∧ a < 165 then "sharp right"
  else if 165 ≤ a ∧ a < 195 then "turn around"
  else if 195 ≤ a ∧ a < 240 then "sharp left"
  else if 240 ≤ a ∧ a < 300 then "turn left"
  else if 300 ≤ a ∧ a ≤ 330 then "slightly left"
  else "go"

/-- Embedding of `angle_to_direction(angle_diff)` from `path_planner.py` lines 97-115
(`direction_finder.py` lines 60-78 is textually identical): the argument is
first normalized by `angle_diff = (angle_diff + 360) % 360`. -/
noncomputable def angle_to_direction (angle_diff : ℝ) : String :=
  angleBucket (pymod (angle_diff + 360) 360)

/-- The nine bearing labels of the spec: the eight turn buckets together with
the defensive fallback. -/
def bearingLabels : List String :=
  ["keep walking straight", "slightly right", "turn right", "sharp right",
   "turn around", "sharp left", "turn left", "slightly left", "go"]

/-- Holds when `G'` extends `G` only by entries holding the empty neighbor list (what a
`defaultdict(list)` read of a missing key appends). -/
def EmptyExt (G G' : Graph) : Prop :=
  ∃ extra, G' = G ++ extra ∧ ∀ p ∈ extra, p.2 = []

/-- Embedding of `get_angle(v1, v2)` from `path_planner.py` lines 92-95:
`degrees(atan2(det, dot)) % 360`, where `atan2(y, x)` is the argument of the
complex number `x + i y`. -/
noncomputable def get_angle (v1 v2 : Pos) : ℝ :=
  pymod ((Complex.mk (v1.1 * v2.1 + v1.2 * v2.2)
    (v1.1 * v2.2 - v1.2 * v2.1)).arg * (180 / Real.pi)) 360

/-- The value printed by `f"~{x:.1f}"` in a raw step and recovered verbatim
by the optimizer's regular expression: `x` rounded to one decimal place
(rounding of exact halves is immaterial to the claims proved here). -/
noncomputable def round1 (x : ℝ) : ℝ := (⌊x * 10 + 1 / 2⌋ : ℝ) / 10

/-- A raw direction produced by `describe_route`, carrying exactly the
fields the optimizer's regular expressions later recover from the formatted
string: either `"Exit {a} and go toward {b}."` (no distance) or
`"Then {direction} to {dest} (~{dist} meters)."`. -/
inductive Step where
  | exitStep (a b : String)
  | moveStep (direction dest : String) (dist : ℝ)

/-- Indexing `route[i]` (every access along the modelled control paths is in range,
where Python would otherwise raise `IndexError`). -/
def routeGet (route : List String) (i : Nat) : String := route.getD i ""

/-- Embedding of `describe_route(route, pos)` from `path_planner.py` lines 118-135: the
first segment is an exit phrase with no distance; every later segment gets a
bearing from the angle between the incoming and outgoing movement vectors
and a one-decimal distance in meters (`math.dist / 100`); segments with an
endpoint missing from `pos` are skipped. -/
noncomputable def describe_route (route : List String) (pos : PosMap) :
    List Step :=
  (List.range (route.length - 1)).filterMap (fun i =>
    let a := routeGet route i
    let b := routeGet route (i + 1)
    if !(posHas pos a) || !(posHas pos b) then none
    else if i = 0 then some (.exitStep a b)
    else
      let prev := posGet pos (routeGet route (i - 1))
      let pa := posGet pos a
      let pb := posGet pos b
      some (.moveStep
        (angle_to_direction (get_angle (pa.1 - prev.1, pa.2 - prev.2)
          (pb.1 - pa.1, pb.2 - pa.2)))
        b (round1 (mathDist pa pb / 100))))

/-- The named-place set of `path_planner.py` line 172. -/
def namedPlaces : List String :=
  ["lobby", "store room", "emergency exit", "main exit", "back exit"]

open Classical in
/-- Embedding of `get_side_and_nearby_rooms(pos_a, pos_b, positions, node_name,
room_names, max_distance)` from `path_planner.py` lines 137-160: project
each candidate room onto the movement segment, keep it when the projection
lies within the segment and the perpendicular distance is within the band,
and classify the side by the sign of the 2-D cross product. -/
noncomputable def get_side_and_nearby_rooms (pa pb : Pos) (positions : PosMap)
    (node_name : String) (room_names : List String) (max_distance : ℝ) :
    List (String × String) :=
  let mv : Pos := (pb.1 - pa.1, pb.2 - pa.2)
  let mag := Real.sqrt (mv.1 ^ 2 + mv.2 ^ 2)
  if mag = 0 then []
  else
    room_names.filterMap (fun name =>
      if !(posHas positions name) || name == node_name then none
      else
        let r := posGet positions name
        let proj := (r.1 - pa.1) * (mv.1 / mag) + (r.2 - pa.2) * (mv.2 / mag)
        if proj < 0 ∨ proj > mag then none
        else
          if Real.sqrt ((r.1 - (pa.1 + proj * (mv.1 / mag))) ^ 2 +
              (r.2 - (pa.2 + proj * (mv.2 / mag))) ^ 2) ≤ max_distance then
            some (name,
              if mv.1 * (r.2 - pa.2) - mv.2 * (r.1 - pa.1) > 0 then "left"
              else "right")
          else none)

/-- The `" passing X on your side and ..."` note attached to one step
(`path_planner.py` lines 194-197), empty when nothing is nearby. -/
noncomputable def noteFor (pa pb : Pos) (pos : PosMap) (dest : String)
    (room_names : List String) : String :=
  let nearby := get_side_and_nearby_rooms pa pb pos dest room_names 150
  if nearby.isEmpty then ""
  else " passing " ++ String.intercalate " and "
    (nearby.map (fun p => p.1 ++ " on your " ++ p.2))

/-- A final instruction emitted by the optimizer: the start phrase, a merged
directional phrase (label, summed distance, landmark notes), a named-place
waypoint phrase (verb, place, distance), or the arrival phrase. -/
inductive Instr where
  | startP (txt : String)
  | merged (direction : String) (dist : ℝ) (notes : List String)
  | waypoint (verb dest : String) (dist : ℝ)
  | arrival (dest : String)

/-- The loop state of `optimize_directions_with_landmarks`: the emitted
instructions, the open merge's direction label and accumulated distance, the
index into the route, the accumulated side notes, and the start phrase. -/
structure OptState where
  result : List Instr
  currentDirection : Option String
  distanceSum : ℝ
  stepIndex : Nat
  sideNotes : List String
  startPhrase : String

/-- One iteration of the optimizer's `for d in directions` loop
(`path_planner.py` lines 175-208).  An exit phrase only sets the start
phrase (and notably does not advance `step_index`).  A step to an
intermediate named place is emitted immediately as an enter/reach phrase and
clears the open merge without flushing its accumulated distance.  Any other
step either extends the open merge (same direction) or flushes it and opens
a new one; the side note computed for the incoming step is appended before
the comparison, exactly as in the source. -/
noncomputable def optStep (pos : PosMap) (route : List String)
    (room_names : List String) (endNode : String) (st : OptState)
    (step : Step) : OptState :=
  match step with
  | .exitStep a _b =>
    { st with startPhrase := "Exit " ++ a ++ " and enter the corridor." }
  | .moveStep direction dest dist =>
    let pa := posGet pos (routeGet route st.stepIndex)
    let pb := posGet pos (routeGet route (st.stepIndex + 1))
    if dest ∈ namedPlaces ∧ dest ≠ endNode then
      { st with
        result := st.result ++
          [.waypoint (if pyStartsWith direction "keep" then "enter" else "reach")
            dest dist]
        currentDirection := none
        stepIndex := st.stepIndex + 1 }
    else
      let note := noteFor pa pb pos dest room_names
      let notes2 := st.sideNotes ++ [note]
      if some direction = st.currentDirection then
        { st with
          distanceSum := st.distanceSum + dist
          sideNotes := notes2
          stepIndex := st.stepIndex + 1 }
      else
        { st with
          result :=
            match st.currentDirection with
            | some cd =>
              st.result ++
                [.merged cd st.distanceSum (notes2.filter (fun s => !s.isEmpty))]
            | none => st.result
          currentDirection := some direction
          distanceSum := dist
          sideNotes := [note]
          stepIndex := st.stepIndex + 1 }

/-- The tail of the optimizer (`path_planner.py` lines 209-214): flush the
open merge if any, prepend the start phrase, append the arrival phrase. -/
noncomputable def optFinish (endNode : String) (st : OptState) : List Instr :=
  match st.currentDirection with
  | some cd =>
    .startP st.startPhrase ::
      (st.result ++
        [.merged cd st.distanceSum (st.sideNotes.filter (fun s => !s.isEmpty))]) ++
      [.arrival endNode]
  | none => .startP st.startPhrase :: st.result ++ [.arrival endNode]

/-- Embedding of `optimize_directions_with_landmarks(directions, route, pos)` from
`path_planner.py` lines 162-214. -/
noncomputable def optimize_directions_with_landmarks (directions : List Step)
    (route : List String) (pos : PosMap) : List Instr :=
  if directions.isEmpty then []
  else
    optFinish (routeGet route (route.length - 1))
      (directions.foldl
        (optStep pos route
          ((pos.map Prod.fst).filter (fun n => pyStartsWith n "room"))
          (routeGet route (route.length - 1)))
        ⟨[], none, 0, 0, [], ""⟩)

/-- The distance figure a raw step carries (`0` for the exit phrase, which
reports none). -/
noncomputable def stepDist : Step → ℝ
  | .exitStep _ _ => 0
  | .moveStep _ _ d => d

/-- The distance figure an emitted instruction reports (`0` for the start
and arrival phrases, which report none). -/
noncomputable def instrDist : Instr → ℝ
  | .merged _ d _ => d
  | .waypoint _ _ d => d
  | .startP _ => 0
  | .arrival _ => 0

/-- Sum of the distances reported across an instruction sequence. -/
noncomputable def reportedSum (l : List Instr) : ℝ := (l.map instrDist).sum

/-- Sum of the distances carried by a raw step sequence. -/
noncomputable def stepDistSum (l : List Step) : ℝ := (l.map stepDist).sum

/-- Distance accounted for by an optimizer state: already-emitted figures
plus the open merge's accumulator (dropped figures count for nothing). -/
noncomputable def pendSum (st : OptState) : ℝ :=
  reportedSum st.result +
    match st.currentDirection with
    | some _ => st.distanceSum
    | none => 0

end EvacAI

namespace EvacAI

/- Helper lemmas about the angle normalization. -/

theorem pymod_add_self_eq (a : ℝ) (h0 : 0 ≤ a) (h1 : a < 360) :
    pymod (a + 360) 360 = a := by
  unfold pymod
  have hfloor : ⌊(a + 360) / 360⌋ = 1 := by
    rw [Int.floor_eq_iff]
    constructor
    · rw [le_div_iff₀ (by norm_num : (0:ℝ) < 360)]; push_cast; linarith
    · rw [div_lt_iff₀ (by norm_num : (0:ℝ) < 360)]; push_cast; linarith
  rw [hfloor]
  push_cast
  ring

/- Facts about dictionary lookups in a normalized graph. -/

theorem mem_adj_mem_entry {G : Graph} {k nb : String} (h : nb ∈ adj G k) :
    ∃ e ∈ G, e.1 = k ∧ nb ∈ e.2 := by
  unfold adj dictFind at h
  cases hf : G.find? (fun p => p.1 == k) with
  | none => rw [hf] at h; simp at h
  | some e =>
    rw [hf] at h
    simp only [Option.map_some', Option.getD_some] at h
    refine ⟨e, List.mem_of_find?_eq_some hf, ?_, h⟩
    have := List.find?_some hf
    simpa using this

theorem adj_subset_valueNames {G : Graph} {k nb : String} (h : nb ∈ adj G k) :
    nb ∈ valueNames G := by
  obtain ⟨e, heG, -, hnb⟩ := mem_adj_mem_entry h
  unfold valueNames
  rw [List.mem_flatten]
  exact ⟨e.2, List.mem_map_of_mem Prod.snd heG, hnb⟩

theorem lower_of_mem_adj {G : Graph} (hG : graph_normalized G = true)
    {k nb : String} (h : nb ∈ adj G k) : lowerName nb = nb := by
  obtain ⟨e, heG, -, hnb⟩ := mem_adj_mem_entry h
  unfold graph_normalized at hG
  rw [List.all_eq_true] at hG
  have := hG e heG
  rw [List.all_eq_true] at this
  have := this nb hnb
  simpa using this

theorem adj_eq_nil_of_not_node {G : Graph} {k : String}
    (h : k ∉ graphNodes G) : adj G k = [] := by
  unfold adj dictFind
  cases hf : G.find? (fun p => p.1 == k) with
  | none => simp
  | some e =>
    simp only [Option.map_some', Option.getD_some]
    by_contra hne
    apply h
    unfold graphNodes
    rw [List.mem_append]
    left
    rw [List.mem_map]
    refine ⟨e, ?_, ?_⟩
    · rw [List.mem_filter]
      refine ⟨List.mem_of_find?_eq_some hf, ?_⟩
      simpa [List.isEmpty_iff] using hne
    · have := List.find?_some hf
      simpa using this

/-- Soundness invariant of the DFS: every returned path extends the
accumulated `path` by a block that starts at the (lower-cased) current node,
ends at the (lower-cased) target, follows graph edges, repeats no node, and
avoids everything already visited. -/
theorem findAllPathsAux_spec (G : Graph) (hG : graph_normalized G = true) :
    ∀ (fuel : Nat) (start stop : String) (path visited : List String)
      (p : List String),
      p ∈ findAllPathsAux G fuel start stop path visited →
      lowerName start ∉ visited →
      ∃ q, p = path ++ lowerName start :: q ∧
        (lowerName start :: q).getLast? = some (lowerName stop) ∧
        List.Chain' (fun a b => b ∈ adj G a) (lowerName start :: q) ∧
        (lowerName start :: q).Nodup ∧
        ∀ x ∈ lowerName start :: q, x ∉ visited := by
  intro fuel
  induction fuel with
  | zero =>
    intro start stop path visited p hp
    simp [findAllPathsAux] at hp
  | succ n ih =>
    intro start stop path visited p hp hsv
    simp only [findAllPathsAux] at hp
    by_cases heq : lowerName start = lowerName stop
    · rw [if_pos heq] at hp
      rw [List.mem_singleton] at hp
      refine ⟨[], by simpa using hp, by simp [heq], by simp, by simp, ?_⟩
      intro x hx
      rw [List.mem_singleton] at hx
      subst hx
      exact hsv
    · rw [if_neg heq] at hp
      rw [List.mem_flatMap] at hp
      obtain ⟨nb, hnb, hpnb⟩ := hp
      rw [List.mem_filter] at hnb
      obtain ⟨hadj, hnvis⟩ := hnb
      have hnb_not : nb ∉ lowerName start :: visited := by
        simpa using hnvis
      have hnorm : lowerName nb = nb := lower_of_mem_adj hG hadj
      obtain ⟨q', hq'eq, hlast, hchain, hnodup, hvis⟩ :=
        ih nb stop (path ++ [lowerName start]) (lowerName start :: visited) p
          hpnb (by rw [hnorm]; exact hnb_not)
      rw [hnorm] at hq'eq hlast hchain hnodup hvis
      refine ⟨nb :: q', ?_, ?_, ?_, ?_, ?_⟩
      · rw [hq'eq, List.append_assoc]
        rfl
      · rw [List.getLast?_cons_cons]
        exact hlast
      · rw [List.chain'_cons]
        exact ⟨hadj, hchain⟩
      · rw [List.nodup_cons]
        refine ⟨?_, hnodup⟩
        intro hmem
        exact hvis _ hmem (List.mem_cons_self _ _)
      · intro x hx
        rcases List.mem_cons.mp hx with rfl | hx'
        · exact hsv
        · intro hxv
          exact hvis x hx' (List.mem_cons_of_mem _ hxv)

/-- C3: every path returned by `find_all_paths(graph, start, end)` begins
with `start`, ends with `end`, contains no repeated name, and every
consecutive pair of names in it is an edge of the graph (the destination is
in the source's neighbor list).  `start` and `end` are assumed already
lower-case and the graph normalized, which is how `load_building_layout`
builds it and how every caller in `main.py` invokes it. -/
theorem c3_find_all_paths_sound (G : Graph) (start stop : String)
    (hG : graph_normalized G = true)
    (hs : lowerName start = start) (he : lowerName stop = stop)
    (p : List String) (hp : p ∈ find_all_paths G start stop) :
    p.head? = some start ∧ p.getLast? = some stop ∧ p.Nodup ∧
      List.Chain' (fun a b => b ∈ adj G a) p := by
  unfold find_all_paths at hp
  obtain ⟨q, hpeq, hlast, hchain, hnodup, -⟩ :=
    findAllPathsAux_spec G hG _ start stop [] [] p hp (by simp)
  rw [hs, he] at *
  rw [List.nil_append] at hpeq
  subst hpeq
  exact ⟨rfl, hlast, hnodup, hchain⟩

/-- C3 witness: on the two-node graph a—b, the returned path `["a","b"]`
satisfies all four properties. -/
theorem c3_witness :
    graph_normalized [("a", ["b"]), ("b", ["a"])] = true ∧
    lowerName "a" = "a" ∧ lowerName "b" = "b" ∧
    (["a", "b"] ∈ find_all_paths [("a", ["b"]), ("b", ["a"])] "a" "b") ∧
    (["a", "b"].head? = some "a" ∧ ["a", "b"].getLast? = some "b" ∧
      ["a", "b"].Nodup ∧
      List.Chain' (fun a b => b ∈ adj [("a", ["b"]), ("b", ["a"])] a)
        ["a", "b"]) :=
  ⟨by decide, by decide, by decide, by decide,
    c3_find_all_paths_sound [("a", ["b"]), ("b", ["a"])] "a" "b"
      (by decide) (by decide) (by decide) ["a", "b"] (by decide)⟩

/-- If the (lower-cased) target is not a node of the graph and differs from
the current node, the DFS yields nothing at any fuel. -/
theorem findAllPathsAux_eq_nil_of_stop_absent (G : Graph)
    (hG : graph_normalized G = true) :
    ∀ (fuel : Nat) (start stop : String) (path visited : List String),
      lowerName stop ∉ graphNodes G →
      lowerName start ≠ lowerName stop →
      findAllPathsAux G fuel start stop path visited = [] := by
  intro fuel
  induction fuel with
  | zero => intro start stop path visited _ _; rfl
  | succ n ih =>
    intro start stop path visited habs hne
    simp only [findAllPathsAux]
    rw [if_neg hne]
    rw [List.flatMap_eq_nil_iff]
    intro nb hnb
    rw [List.mem_filter] at hnb
    have hadj := hnb.1
    have hval : nb ∈ valueNames G := adj_subset_valueNames hadj
    have hnorm : lowerName nb = nb := lower_of_mem_adj hG hadj
    apply ih
    · exact habs
    · rw [hnorm]
      intro hcontra
      apply habs
      rw [← hcontra]
      unfold graphNodes
      exact List.mem_append_right _ hval

/-- C8 counterexample: the claim says that whenever `start` or `end` is
absent from the graph's node set the result is the empty list, but querying
the empty graph with `start = end = "x"` returns the one-node path
`[["x"]]`, because the `start == end` check fires before any graph access. -/
theorem c8_counterexample :
    find_all_paths [] "x" "x" = [["x"]] ∧
      "x" ∉ graphNodes [] ∧
      ([["x"]] : List (List String)) ≠ [] := by
  refine ⟨by decide, by decide, by decide⟩

/-- C8 amended: if `start` or `end` (lower-cased) is absent from the graph's
node set AND the two differ after lower-casing, `find_all_paths` returns the
empty list; when `start = end`, the enumerator instead returns the trivial
one-node path even for names absent from the graph. -/
theorem c8_absent_endpoint_nil (G : Graph) (start stop : String)
    (hG : graph_normalized G = true)
    (habs : lowerName start ∉ graphNodes G ∨ lowerName stop ∉ graphNodes G)
    (hne : lowerName start ≠ lowerName stop) :
    find_all_paths G start stop = [] := by
  rcases habs with hs | he
  · unfold find_all_paths
    simp only [findAllPathsAux]
    rw [if_neg hne]
    rw [adj_eq_nil_of_not_node hs]
    rfl
  · exact findAllPathsAux_eq_nil_of_stop_absent G hG _ start stop [] [] he hne

/-- C8 witness: `"c"` is not a node of the two-node graph a—b, and the query
from `"c"` to `"a"` returns the empty list. -/
theorem c8_witness :
    graph_normalized [("a", ["b"]), ("b", ["a"])] = true ∧
    lowerName "c" ∉ graphNodes [("a", ["b"]), ("b", ["a"])] ∧
    lowerName "c" ≠ lowerName "a" ∧
    find_all_paths [("a", ["b"]), ("b", ["a"])] "c" "a" = [] :=
  ⟨by decide, by decide, by decide,
    c8_absent_endpoint_nil [("a", ["b"]), ("b", ["a"])] "c" "a" (by decide)
      (Or.inl (by decide)) (by decide)⟩

theorem emptyExt_refl (G : Graph) : EmptyExt G G :=
  ⟨[], by simp, by simp⟩

theorem emptyExt_trans {G G' G'' : Graph} (h1 : EmptyExt G G')
    (h2 : EmptyExt G' G'') : EmptyExt G G'' := by
  obtain ⟨e1, rfl, ha1⟩ := h1
  obtain ⟨e2, rfl, ha2⟩ := h2
  refine ⟨e1 ++ e2, by rw [List.append_assoc], ?_⟩
  intro p hp
  rcases List.mem_append.mp hp with h | h
  · exact ha1 p h
  · exact ha2 p h

theorem dictGet_emptyExt (G : Graph) (k : String) :
    EmptyExt G (dictGet G k).2 := by
  unfold dictGet
  cases h : dictFind G k with
  | some l => exact emptyExt_refl G
  | none => exact ⟨[(k, [])], rfl, by simp⟩

theorem findAllPathsDAux_emptyExt :
    ∀ (fuel : Nat) (G : Graph) (start stop : String)
      (path visited : List String),
      EmptyExt G (findAllPathsDAux fuel G start stop path visited).2 := by
  intro fuel
  induction fuel with
  | zero => intro G start stop path visited; exact emptyExt_refl G
  | succ n ih =>
    intro G start stop path visited
    simp only [findAllPathsDAux]
    by_cases heq : lowerName start = lowerName stop
    · rw [if_pos heq]; exact emptyExt_refl G
    · rw [if_neg heq]
      have hfold : ∀ (nbs : List String) (acc : List (List String) × Graph),
          EmptyExt G acc.2 →
          EmptyExt G (nbs.foldl
            (fun acc nb =>
              if (lowerName start :: visited).contains nb then acc
              else
                let r := findAllPathsDAux n acc.2 nb stop
                  (path ++ [lowerName start]) (lowerName start :: visited)
                (acc.1 ++ r.1, r.2))
            acc).2 := by
        intro nbs
        induction nbs with
        | nil => intro acc hacc; exact hacc
        | cons nb rest ihr =>
          intro acc hacc
          rw [List.foldl_cons]
          by_cases hv : (lowerName start :: visited).contains nb
          · rw [if_pos hv]; exact ihr acc hacc
          · rw [if_neg hv]
            exact ihr _ (emptyExt_trans hacc (ih acc.2 nb stop _ _))
      exact hfold _ _ (dictGet_emptyExt G (lowerName start))

/-- Reads through the defaulted adjacency view are unchanged by empty
extensions. -/
theorem adj_emptyExt {G G' : Graph} (h : EmptyExt G G') (k : String) :
    adj G' k = adj G k := by
  obtain ⟨extra, rfl, hall⟩ := h
  induction G with
  | nil =>
    rw [List.nil_append]
    unfold adj dictFind
    cases hf : extra.find? (fun p => p.1 == k) with
    | none => simp
    | some e =>
      have he : e.2 = [] := hall e (List.mem_of_find?_eq_some hf)
      simp [he]
  | cons a G ihg =>
    unfold adj dictFind
    rw [List.cons_append]
    cases hak : a.1 == k with
    | true =>
      rw [List.find?_cons_of_pos _ (by simpa using hak),
        List.find?_cons_of_pos _ (by simpa using hak)]
    | false =>
      rw [List.find?_cons_of_neg _ (by simpa using hak),
        List.find?_cons_of_neg _ (by simpa using hak)]
      exact ihg

theorem graphNodes_emptyExt {G G' : Graph} (h : EmptyExt G G') :
    graphNodes G' = graphNodes G := by
  obtain ⟨extra, rfl, hall⟩ := h
  unfold graphNodes valueNames
  rw [List.filter_append, List.map_append, List.map_append,
    List.flatten_append]
  have h1 : extra.filter (fun p => !p.2.isEmpty) = [] := by
    rw [List.filter_eq_nil_iff]
    intro p hp
    simp [hall p hp]
  have h2 : (extra.map Prod.snd).flatten = [] := by
    rw [List.flatten_eq_nil_iff]
    intro l hl
    obtain ⟨p, hp, rfl⟩ := List.mem_map.mp hl
    exact hall p hp
  rw [h1, h2]
  simp

/-- C9 counterexample: the claim says the graph's adjacency mapping is the
same after a `find_all_paths` call as before it, but calling it with a start
absent from the dict inserts that key (with an empty list) into the cached
`defaultdict`, changing the mapping's entry set. -/
theorem c9_counterexample :
    (find_all_pathsD [("a", ["b"])] "x" "y").2 = [("a", ["b"]), ("x", [])] ∧
      ([("a", ["b"]), ("x", [])] : Graph) ≠ [("a", ["b"])] :=
  ⟨by decide, by decide⟩

/-- C9 amended: a `find_all_paths` call never changes the node set (names
participating in at least one edge) nor any defaulted adjacency read — but
it may grow the underlying `defaultdict` by keys holding empty neighbor
lists, one for each missing name it touches, so the dict itself is mutated. -/
theorem c9_graph_preserved (G : Graph) (start stop : String) :
    graphNodes (find_all_pathsD G start stop).2 = graphNodes G ∧
      ∀ k, adj (find_all_pathsD G start stop).2 k = adj G k := by
  have h := findAllPathsDAux_emptyExt ((valueNames G).length + 1) G start stop
    [] []
  exact ⟨graphNodes_emptyExt h, fun k => adj_emptyExt h k⟩

/-- C4: `is_safe_path(path, hazards)` returns `False` if and only if some
node of the path is a member of the hazard set, i.e. iff the intersection of
the path's node set with the hazard set is non-empty (equivalently, it
returns `True` iff no node of the path is in the hazard set). -/
theorem c4_is_safe_path_false_iff_intersects (path blocked : List String) :
    is_safe_path path blocked = false ↔ ∃ n, n ∈ path ∧ n ∈ blocked := by
  unfold is_safe_path
  rw [← Bool.not_eq_true, List.all_eq_true]
  push_neg
  constructor
  · rintro ⟨n, hn, hb⟩
    exact ⟨n, hn, by simpa using hb⟩
  · rintro ⟨n, hn, hb⟩
    exact ⟨n, hn, by simpa using hb⟩

/-- C6: `angle_to_direction` is total on [0, 360): every such angle is mapped
to one of the nine bearing labels, and the defensive fallback `"go"` is
returned for no angle in [0, 360). -/
theorem c6_angle_to_direction_total (a : ℝ) (h0 : 0 ≤ a) (h1 : a < 360) :
    angle_to_direction a ∈ bearingLabels ∧ angle_to_direction a ≠ "go" := by
  unfold angle_to_direction
  rw [pymod_add_self_eq a h0 h1]
  unfold angleBucket
  split_ifs with hA hB hC hD hE hF hG hH
  · exact ⟨by simp [bearingLabels], by decide⟩
  · exact ⟨by simp [bearingLabels], by decide⟩
  · exact ⟨by simp [bearingLabels], by decide⟩
  · exact ⟨by simp [bearingLabels], by decide⟩
  · exact ⟨by simp [bearingLabels], by decide⟩
  · exact ⟨by simp [bearingLabels], by decide⟩
  · exact ⟨by simp [bearingLabels], by decide⟩
  · exact ⟨by simp [bearingLabels], by decide⟩
  · exfalso
    push_neg at hA hB hC hD hE hF hG hH
    rcases hA with ⟨hA1, hA2⟩
    have h45 : 45 ≤ a := hA1
    have h60 : 60 ≤ a := by
      by_contra h
      exact absurd (hB (by linarith)) (by push_neg; linarith)
    have h120 : 120 ≤ a := by
      by_contra h
      exact absurd (hC (by linarith)) (by push_neg; linarith)
    have h165 : 165 ≤ a := by
      by_contra h
      exact absurd (hD (by linarith)) (by push_neg; linarith)
    have h195 : 195 ≤ a := by
      by_contra h
      exact absurd (hE (by linarith)) (by push_neg; linarith)
    have h240 : 240 ≤ a := by
      by_contra h
      exact absurd (hF (by linarith)) (by push_neg; linarith)
    have h300 : 300 ≤ a := by
      by_contra h
      exact absurd (hG (by linarith)) (by push_neg; linarith)
    have := hH h300
    linarith

/-- C6 witness: the angle 123 lies in [0, 360), and `angle_to_direction 123`
is one of the nine labels and is not `"go"`. -/
theorem c6_witness :
    (0:ℝ) ≤ 123 ∧ (123:ℝ) < 360 ∧
      (angle_to_direction 123 ∈ bearingLabels ∧ angle_to_direction 123 ≠ "go") :=
  ⟨by norm_num, by norm_num,
    c6_angle_to_direction_total 123 (by norm_num) (by norm_num)⟩

/-- Python `min(x :: xs, key)` returns an element of the list whose key is a
minimum, and it is the first such element: everything before it in the list
has a strictly larger key. -/
theorem python_min1_spec (key : List String → ℝ) :
    ∀ (xs : List (List String)) (x : List String),
      ∃ pre suf, x :: xs = pre ++ python_min1 key x xs :: suf ∧
        (∀ y ∈ pre, key (python_min1 key x xs) < key y) ∧
        ∀ y ∈ x :: xs, key (python_min1 key x xs) ≤ key y := by
  intro xs
  induction xs with
  | nil =>
    intro x
    refine ⟨[], [], rfl, by simp, ?_⟩
    intro y hy
    rw [List.mem_singleton] at hy
    subst hy
    exact le_refl _
  | cons y ys ih =>
    intro x
    have hfold : python_min1 key x (y :: ys) =
        python_min1 key (if key y < key x then y else x) ys := by
      unfold python_min1
      rw [List.foldl_cons]
    by_cases hxy : key y < key x
    · rw [hfold, if_pos hxy]
      obtain ⟨pre', suf', hdec, hpre, hle⟩ := ih y
      refine ⟨x :: pre', suf', ?_, ?_, ?_⟩
      · rw [List.cons_append, ← hdec]
      · intro z hz
        rcases List.mem_cons.mp hz with rfl | hz'
        · exact lt_of_le_of_lt (hle y (List.mem_cons_self _ _)) hxy
        · exact hpre z hz'
      · intro z hz
        rcases List.mem_cons.mp hz with rfl | hz'
        · exact le_of_lt (lt_of_le_of_lt (hle y (List.mem_cons_self _ _)) hxy)
        · exact hle z hz'
    · rw [hfold, if_neg hxy]
      obtain ⟨pre', suf', hdec, hpre, hle⟩ := ih x
      cases pre' with
      | nil =>
        rw [List.nil_append] at hdec
        have hr : python_min1 key x ys = x := by
          have := congrArg List.head? hdec
          simpa using this.symm
        refine ⟨[], y :: ys, by rw [hr]; simp, by simp, ?_⟩
        intro z hz
        rw [hr]
        rcases List.mem_cons.mp hz with rfl | hz'
        · exact le_refl _
        rcases List.mem_cons.mp hz' with rfl | hz''
        · exact le_of_not_lt hxy
        · exact hr ▸ hle z (List.mem_cons_of_mem _ hz'')
      | cons z pre'' =>
        rw [List.cons_append] at hdec
        have hz : z = x := by
          have := congrArg List.head? hdec
          simpa using this.symm
        have htail : ys = pre'' ++ python_min1 key x ys :: suf' := by
          have := congrArg List.tail hdec
          simpa using this
        have hrx : key (python_min1 key x ys) < key x := by
          have := hpre z (List.mem_cons_self _ _)
          rw [hz] at this
          exact this
        refine ⟨x :: y :: pre'', suf', ?_, ?_, ?_⟩
        · rw [List.cons_append, List.cons_append, ← htail]
        · intro w hw
          rcases List.mem_cons.mp hw with rfl | hw'
          · exact hrx
          rcases List.mem_cons.mp hw' with rfl | hw''
          · exact lt_of_lt_of_le hrx (le_of_not_lt hxy)
          · exact hpre w (List.mem_cons_of_mem _ hw'')
        · intro w hw
          rcases List.mem_cons.mp hw with rfl | hw'
          · exact le_of_lt hrx
          rcases List.mem_cons.mp hw' with rfl | hw''
          · exact le_of_lt (lt_of_lt_of_le hrx (le_of_not_lt hxy))
          · exact hle w (List.mem_cons_of_mem _ hw'')

/-- C2: when the `safe_paths` list of a query is nonempty, the route the code
selects via `min(safe_paths, key=lambda p: get_total_distance(p, positions))`
is a member of the safe-path list minimizing the total Euclidean length (the
sum of consecutive-pair straight-line distances), and on ties it is the
first minimizer in enumeration order. -/
theorem c2_min_distance_selection (G : Graph) (pos : PosMap)
    (threats : List String) (current destination : String)
    (best : List String)
    (h : python_min (fun p => get_total_distance p pos)
        ((find_all_paths G current destination).filter
          (fun p => is_safe_path p threats)) = some best) :
    best ∈ (find_all_paths G current destination).filter
        (fun p => is_safe_path p threats) ∧
      (∀ q ∈ (find_all_paths G current destination).filter
          (fun p => is_safe_path p threats),
        get_total_distance best pos ≤ get_total_distance q pos) ∧
      ∃ pre suf,
        (find_all_paths G current destination).filter
            (fun p => is_safe_path p threats) = pre ++ best :: suf ∧
          ∀ q ∈ pre,
            get_total_distance best pos < get_total_distance q pos := by
  cases hsafe : (find_all_paths G current destination).filter
      (fun p => is_safe_path p threats) with
  | nil =>
    rw [hsafe] at h
    simp [python_min] at h
  | cons x xs =>
    rw [hsafe] at h
    simp only [python_min, Option.some.injEq] at h
    obtain ⟨pre, suf, hdec, hpre, hle⟩ :=
      python_min1_spec (fun p => get_total_distance p pos) xs x
    rw [h] at hdec hpre hle
    refine ⟨?_, ?_, pre, suf, hdec, hpre⟩
    · rw [hdec]
      exact List.mem_append_right _ (List.mem_cons_self _ _)
    · exact hle

/-- C2 witness: a concrete one-safe-path query on the two-node graph. -/
theorem c2_witness :
    python_min
        (fun p => get_total_distance p [("a", ((0:ℝ), (0:ℝ))), ("b", (100, 0))])
        ((find_all_paths [("a", ["b"]), ("b", ["a"])] "a" "b").filter
          (fun p => is_safe_path p [])) = some ["a", "b"] ∧
      (["a", "b"] ∈ (find_all_paths [("a", ["b"]), ("b", ["a"])] "a" "b").filter
          (fun p => is_safe_path p []) ∧
        (∀ q ∈ (find_all_paths [("a", ["b"]), ("b", ["a"])] "a" "b").filter
            (fun p => is_safe_path p []),
          get_total_distance ["a", "b"] [("a", ((0:ℝ), (0:ℝ))), ("b", (100, 0))] ≤
            get_total_distance q [("a", ((0:ℝ), (0:ℝ))), ("b", (100, 0))]) ∧
        ∃ pre suf,
          (find_all_paths [("a", ["b"]), ("b", ["a"])] "a" "b").filter
              (fun p => is_safe_path p []) = pre ++ ["a", "b"] :: suf ∧
            ∀ q ∈ pre,
              get_total_distance ["a", "b"]
                  [("a", ((0:ℝ), (0:ℝ))), ("b", (100, 0))] <
                get_total_distance q [("a", ((0:ℝ), (0:ℝ))), ("b", (100, 0))]) :=
  ⟨rfl,
    c2_min_distance_selection [("a", ["b"]), ("b", ["a"])]
      [("a", ((0:ℝ), (0:ℝ))), ("b", (100, 0))] [] "a" "b" ["a", "b"] rfl⟩

/-- C1 counterexample: a query with no connecting path at all (`a` to `z`)
and a query whose paths exist but are all blocked (`a` to `b` with hazard
`b`) both make `/safe-move` return the identical blocked-paths error, so the
two outcomes are conflated by that endpoint. -/
theorem c1_counterexample :
    find_all_paths [("a", ["b"]), ("b", ["a"])] "a" "z" = [] ∧
      find_all_paths [("a", ["b"]), ("b", ["a"])] "a" "b" ≠ [] ∧
      safe_move_route [("a", ["b"]), ("b", ["a"])] [] [] "a" "z" =
        .err "All paths from current location are blocked due to threats." ∧
      safe_move_route [("a", ["b"]), ("b", ["a"])] [] ["b"] "a" "b" =
        .err "All paths from current location are blocked due to threats." :=
  ⟨by decide, by decide, rfl, rfl⟩

/-- C1 amended: `/auto-reroute` (with an explicit destination) does report
`NoPathFound` and `AllPathsBlocked` as distinct errors, but `/safe-move`
reports the single blocked-paths error in both situations, conflating them. -/
theorem c1_error_discrimination (G₁ G₂ : Graph) (pos₁ pos₂ : PosMap)
    (t₁ t₂ : List String) (c₁ c₂ d₁ d₂ : String)
    (h1 : find_all_paths G₁ c₁ d₁ = [])
    (h2 : find_all_paths G₂ c₂ d₂ ≠ [])
    (h3 : (find_all_paths G₂ c₂ d₂).filter (fun p => is_safe_path p t₂) = []) :
    auto_reroute_route G₁ pos₁ t₁ c₁ d₁ = .err "No paths found." ∧
      auto_reroute_route G₂ pos₂ t₂ c₂ d₂ =
        .err "All paths are blocked due to threats." ∧
      auto_reroute_route G₁ pos₁ t₁ c₁ d₁ ≠
        auto_reroute_route G₂ pos₂ t₂ c₂ d₂ ∧
      safe_move_route G₁ pos₁ t₁ c₁ d₁ = safe_move_route G₂ pos₂ t₂ c₂ d₂ := by
  have hne : (find_all_paths G₂ c₂ d₂).isEmpty = false := by
    rw [List.isEmpty_eq_false]
    exact h2
  have e1 : auto_reroute_route G₁ pos₁ t₁ c₁ d₁ = .err "No paths found." := by
    simp [auto_reroute_route, h1]
  have e2 : auto_reroute_route G₂ pos₂ t₂ c₂ d₂ =
      .err "All paths are blocked due to threats." := by
    simp [auto_reroute_route, hne, h3]
  have e4 : safe_move_route G₁ pos₁ t₁ c₁ d₁ = safe_move_route G₂ pos₂ t₂ c₂ d₂ := by
    simp [safe_move_route, h1, h3]
  refine ⟨e1, e2, ?_, e4⟩
  rw [e1, e2]
  intro hcontra
  have := RouteOutcome.err.inj hcontra
  exact absurd this (by decide)

/-- C1 witness: concrete graphs realizing both error situations. -/
theorem c1_witness :
    find_all_paths [("a", ["b"]), ("b", ["a"])] "a" "z" = [] ∧
      find_all_paths [("a", ["b"]), ("b", ["a"])] "a" "b" ≠ [] ∧
      (find_all_paths [("a", ["b"]), ("b", ["a"])] "a" "b").filter
        (fun p => is_safe_path p ["b"]) = [] ∧
      (auto_reroute_route [("a", ["b"]), ("b", ["a"])] [] [] "a" "z" =
          .err "No paths found." ∧
        auto_reroute_route [("a", ["b"]), ("b", ["a"])] [] ["b"] "a" "b" =
          .err "All paths are blocked due to threats." ∧
        auto_reroute_route [("a", ["b"]), ("b", ["a"])] [] [] "a" "z" ≠
          auto_reroute_route [("a", ["b"]), ("b", ["a"])] [] ["b"] "a" "b" ∧
        safe_move_route [("a", ["b"]), ("b", ["a"])] [] [] "a" "z" =
          safe_move_route [("a", ["b"]), ("b", ["a"])] [] ["b"] "a" "b") :=
  ⟨by decide, by decide, by decide,
    c1_error_discrimination [("a", ["b"]), ("b", ["a"])]
      [("a", ["b"]), ("b", ["a"])] [] [] [] ["b"] "a" "a" "z" "b"
      (by decide) (by decide) (by decide)⟩

theorem reportedSum_append (l1 l2 : List Instr) :
    reportedSum (l1 ++ l2) = reportedSum l1 + reportedSum l2 := by
  simp [reportedSum]

/-- One non-waypoint step changes the accounted distance by exactly the
distance the step carries. -/
theorem pendSum_optStep (pos : PosMap) (route : List String)
    (room_names : List String) (endNode : String) (st : OptState) (step : Step)
    (h : ∀ d dest dist, step = Step.moveStep d dest dist →
      dest ∉ namedPlaces ∨ dest = endNode) :
    pendSum (optStep pos route room_names endNode st step) =
      pendSum st + stepDist step := by
  cases step with
  | exitStep a b =>
    simp [optStep, pendSum, stepDist]
  | moveStep d dest dist =>
    have hnw : ¬(dest ∈ namedPlaces ∧ dest ≠ endNode) := by
      rcases h d dest dist rfl with h' | h'
      · intro hc; exact h' hc.1
      · intro hc; exact hc.2 h'
    simp only [optStep]
    rw [if_neg hnw]
    by_cases hdir : some d = st.currentDirection
    · rw [if_pos hdir]
      unfold pendSum stepDist
      rw [← hdir]
      ring
    · rw [if_neg hdir]
      cases hc : st.currentDirection with
      | none =>
        unfold pendSum stepDist
        rw [hc]
        ring
      | some cd =>
        unfold pendSum stepDist
        rw [hc, reportedSum_append]
        simp [reportedSum, instrDist]

theorem pendSum_foldl (pos : PosMap) (route : List String)
    (room_names : List String) (endNode : String) :
    ∀ (steps : List Step) (st : OptState),
      (∀ s ∈ steps, ∀ d dest dist, s = Step.moveStep d dest dist →
        dest ∉ namedPlaces ∨ dest = endNode) →
      pendSum (steps.foldl (optStep pos route room_names endNode) st) =
        pendSum st + stepDistSum steps := by
  intro steps
  induction steps with
  | nil => intro st _; simp [stepDistSum]
  | cons s rest ih =>
    intro st hok
    rw [List.foldl_cons]
    rw [ih _ (fun x hx => hok x (List.mem_cons_of_mem _ hx))]
    rw [pendSum_optStep pos route room_names endNode st s
      (hok s (List.mem_cons_self _ _))]
    unfold stepDistSum
    rw [List.map_cons, List.sum_cons]
    ring

theorem reportedSum_optFinish (endNode : String) (st : OptState) :
    reportedSum (optFinish endNode st) = pendSum st := by
  cases hc : st.currentDirection with
  | none =>
    unfold optFinish pendSum
    rw [hc]
    simp [reportedSum, instrDist]
  | some cd =>
    unfold optFinish pendSum
    rw [hc]
    simp [reportedSum, instrDist, List.map_append]

/-- C7 amended: whenever no raw step heads to an intermediate named place,
the distances reported by the optimizer's output (merged phrases together
with waypoint phrases) sum to exactly the distances carried by the raw
steps it consumed — the merging of consecutive same-direction segments loses
nothing.  The raw exit phrase for the first segment carries no distance at
all, however, so this total omits the first segment and (being built from
one-decimal figures) matches the exact Euclidean route total only up to
those omissions.  An intermediate named-place phrase would additionally
discard any merge accumulated before it. -/
theorem c7_merge_preserves_reported_distance (directions : List Step)
    (route : List String) (pos : PosMap)
    (h : ∀ s ∈ directions, ∀ d dest dist, s = Step.moveStep d dest dist →
      dest ∉ namedPlaces ∨ dest = routeGet route (route.length - 1)) :
    reportedSum (optimize_directions_with_landmarks directions route pos) =
      stepDistSum directions := by
  unfold optimize_directions_with_landmarks
  by_cases hemp : directions.isEmpty
  · rw [if_pos hemp]
    have hnil : directions = [] := by
      cases directions with
      | nil => rfl
      | cons a l => simp at hemp
    rw [hnil]
    simp [reportedSum, stepDistSum]
  · rw [if_neg hemp]
    rw [reportedSum_optFinish]
    rw [pendSum_foldl _ _ _ _ directions _ h]
    simp [pendSum, reportedSum]

/-- C7 witness: two same-direction junction steps of 5 and 7 meters merge
into a single reported figure; the reported total equals the consumed step
total. -/
theorem c7_witness :
    (∀ s ∈ [Step.exitStep "a" "j1",
        Step.moveStep "turn right" "j2" 5, Step.moveStep "turn right" "j3" 7],
      ∀ d dest dist, s = Step.moveStep d dest dist →
        dest ∉ namedPlaces ∨
          dest = routeGet ["a", "j1", "j2", "j3"]
            (["a", "j1", "j2", "j3"].length - 1)) ∧
      reportedSum (optimize_directions_with_landmarks
          [Step.exitStep "a" "j1", Step.moveStep "turn right" "j2" 5,
            Step.moveStep "turn right" "j3" 7]
          ["a", "j1", "j2", "j3"] []) =
        stepDistSum [Step.exitStep "a" "j1", Step.moveStep "turn right" "j2" 5,
          Step.moveStep "turn right" "j3" 7] := by
  have hok : ∀ s ∈ [Step.exitStep "a" "j1",
      Step.moveStep "turn right" "j2" 5, Step.moveStep "turn right" "j3" 7],
      ∀ d dest dist, s = Step.moveStep d dest dist →
        dest ∉ namedPlaces ∨
          dest = routeGet ["a", "j1", "j2", "j3"]
            (["a", "j1", "j2", "j3"].length - 1) := by
    intro s hs d dest dist heq
    rcases List.mem_cons.mp hs with rfl | hs'
    · exact absurd heq (by simp)
    rcases List.mem_cons.mp hs' with rfl | hs''
    · left
      cases heq
      decide
    rcases List.mem_cons.mp hs'' with rfl | hs'''
    · left
      cases heq
      decide
    · simp at hs'''
  exact ⟨hok,
    c7_merge_preserves_reported_distance
      [Step.exitStep "a" "j1", Step.moveStep "turn right" "j2" 5,
        Step.moveStep "turn right" "j3" 7]
      ["a", "j1", "j2", "j3"] [] hok⟩

/-- C7 counterexample: on the two-node route a→b of 100 cm, the raw
directions consist of the exit phrase alone, which carries no distance, so
the optimizer's output reports a distance total of 0 while the route's total
Euclidean distance is 100 — the claimed equality fails because the first
segment's distance is never reported. -/
theorem c7_counterexample :
    reportedSum (optimize_directions_with_landmarks
        (describe_route ["a", "b"] [("a", ((0:ℝ), (0:ℝ))), ("b", (100, 0))])
        ["a", "b"] [("a", ((0:ℝ), (0:ℝ))), ("b", (100, 0))]) = 0 ∧
      get_total_distance ["a", "b"]
          [("a", ((0:ℝ), (0:ℝ))), ("b", (100, 0))] = 100 ∧
      (0:ℝ) ≠ 100 := by
  refine ⟨?_, ?_, by norm_num⟩
  · have hd : describe_route ["a", "b"]
        [("a", ((0:ℝ), (0:ℝ))), ("b", (100, 0))] = [Step.exitStep "a" "b"] := rfl
    rw [hd]
    have ho : optimize_directions_with_landmarks [Step.exitStep "a" "b"]
        ["a", "b"] [("a", ((0:ℝ), (0:ℝ))), ("b", (100, 0))] =
        [Instr.startP "Exit a and enter the corridor.", Instr.arrival "b"] := rfl
    rw [ho]
    simp [reportedSum, instrDist]
  · have hz : ["a", "b"].zip ["b"] = [("a", "b")] := rfl
    unfold get_total_distance
    rw [show (["a", "b"] : List String).tail = ["b"] from rfl, hz]
    rw [List.map_cons, List.map_nil, List.sum_cons, List.sum_nil]
    have hpa : posGet [("a", ((0:ℝ), (0:ℝ))), ("b", (100, 0))] "a" =
        ((0:ℝ), (0:ℝ)) := rfl
    have hpb : posGet [("a", ((0:ℝ), (0:ℝ))), ("b", (100, 0))] "b" =
        ((100:ℝ), (0:ℝ)) := rfl
    rw [hpa, hpb]
    unfold mathDist
    have harg : (((0:ℝ), (0:ℝ)).1 - ((100:ℝ), (0:ℝ)).1) ^ 2 +
        (((0:ℝ), (0:ℝ)).2 - ((100:ℝ), (0:ℝ)).2) ^ 2 = 100 ^ 2 := by
      norm_num
    rw [harg, Real.sqrt_sq (by norm_num : (0:ℝ) ≤ 100)]
    ring

/-- Appending more steps never removes already-emitted instructions. -/
theorem optStep_result_extends (pos : PosMap) (route : List String)
    (room_names : List String) (endNode : String) (st : OptState)
    (step : Step) :
    ∃ t, (optStep pos route room_names endNode st step).result =
      st.result ++ t := by
  cases step with
  | exitStep a b => exact ⟨[], by simp [optStep]⟩
  | moveStep d dest dist =>
    simp only [optStep]
    by_cases hw : dest ∈ namedPlaces ∧ dest ≠ endNode
    · rw [if_pos hw]
      exact ⟨_, rfl⟩
    · rw [if_neg hw]
      by_cases hdir : some d = st.currentDirection
      · rw [if_pos hdir]
        exact ⟨[], by simp⟩
      · rw [if_neg hdir]
        cases hc : st.currentDirection with
        | none => exact ⟨[], by simp⟩
        | some cd => exact ⟨_, rfl⟩

theorem foldl_result_extends (pos : PosMap) (route : List String)
    (room_names : List String) (endNode : String) :
    ∀ (steps : List Step) (st : OptState),
      ∃ t, (steps.foldl (optStep pos route room_names endNode) st).result =
        st.result ++ t := by
  intro steps
  induction steps with
  | nil => intro st; exact ⟨[], by simp⟩
  | cons s rest ih =>
    intro st
    rw [List.foldl_cons]
    obtain ⟨t1, ht1⟩ := optStep_result_extends pos route room_names endNode st s
    obtain ⟨t2, ht2⟩ := ih (optStep pos route room_names endNode st s)
    exact ⟨t1 ++ t2, by rw [ht2, ht1, List.append_assoc]⟩

theorem mem_optFinish_of_mem_result {x : Instr} {st : OptState}
    (endNode : String) (h : x ∈ st.result) : x ∈ optFinish endNode st := by
  cases hc : st.currentDirection with
  | none =>
    unfold optFinish
    rw [hc]
    exact List.mem_cons_of_mem _ (List.mem_append_left _ h)
  | some cd =>
    unfold optFinish
    rw [hc]
    exact List.mem_cons_of_mem _
      (List.mem_append_left _ (List.mem_append_left _ h))

/-- C10 amended: a step whose destination is a recognized named place other
than the route's final destination is emitted as its own enter/reach
waypoint phrase — but the verb is `"enter"` exactly when the raw direction
is a straight-ahead motion (`"keep..."`); turning motions receive `"reach"`
like every other non-straight label.  (Only the standalone
`direction_finder.py` variant also maps `"turn..."` to `"enter"`.) -/
theorem c10_named_place_phrase (directions : List Step) (route : List String)
    (pos : PosMap) (pre suf : List Step) (d dest : String) (dist : ℝ)
    (hdec : directions = pre ++ Step.moveStep d dest dist :: suf)
    (hnp : dest ∈ namedPlaces)
    (hne : dest ≠ routeGet route (route.length - 1)) :
    Instr.waypoint (if pyStartsWith d "keep" then "enter" else "reach") dest
        dist ∈
      optimize_directions_with_landmarks directions route pos := by
  subst hdec
  unfold optimize_directions_with_landmarks
  have hemp : (pre ++ Step.moveStep d dest dist :: suf).isEmpty = false := by
    cases pre <;> rfl
  rw [if_neg (by rw [hemp]; exact Bool.false_ne_true)]
  rw [List.foldl_append, List.foldl_cons]
  apply mem_optFinish_of_mem_result
  set room_names := (pos.map Prod.fst).filter (fun n => pyStartsWith n "room")
  set endNode := routeGet route (route.length - 1)
  set st1 := pre.foldl (optStep pos route room_names endNode)
    ⟨[], none, 0, 0, [], ""⟩
  have hstep : (optStep pos route room_names endNode st1
      (Step.moveStep d dest dist)).result =
      st1.result ++
        [Instr.waypoint (if pyStartsWith d "keep" then "enter" else "reach")
          dest dist] := by
    simp only [optStep]
    rw [if_pos ⟨hnp, hne⟩]
  obtain ⟨t, ht⟩ := foldl_result_extends pos route room_names endNode suf
    (optStep pos route room_names endNode st1 (Step.moveStep d dest dist))
  rw [ht, hstep, List.append_assoc]
  exact List.mem_append_right _ (List.mem_append_left _
    (List.mem_singleton.mpr rfl))

/-- C10 witness: a turning step into the lobby (not the final destination),
with every route node carrying a position, yields a `"reach"` waypoint
phrase in the optimizer output. -/
theorem c10_witness :
    ([Step.moveStep "turn right" "lobby" (5:ℝ)] =
        [] ++ Step.moveStep "turn right" "lobby" (5:ℝ) :: []) ∧
      "lobby" ∈ namedPlaces ∧
      "lobby" ≠ routeGet ["y", "lobby", "c"] (["y", "lobby", "c"].length - 1) ∧
      Instr.waypoint (if pyStartsWith "turn right" "keep" then "enter"
          else "reach") "lobby" (5:ℝ) ∈
        optimize_directions_with_landmarks
          [Step.moveStep "turn right" "lobby" (5:ℝ)] ["y", "lobby", "c"]
          [("y", ((0:ℝ), (0:ℝ))), ("lobby", (500, 0)), ("c", (1000, 0))] :=
  ⟨rfl, by decide, by decide,
    c10_named_place_phrase [Step.moveStep "turn right" "lobby" (5:ℝ)]
      ["y", "lobby", "c"]
      [("y", ((0:ℝ), (0:ℝ))), ("lobby", (500, 0)), ("c", (1000, 0))] [] []
      "turn right" "lobby" (5:ℝ) rfl (by decide) (by decide)⟩

/-- C10 counterexample: the claim wants `"enter"` for turning motions as
well, but for the turning direction `"turn right"` into the lobby (with all
route nodes positioned, so the optimizer's coordinate reads succeed) the
backend optimizer emits `"reach"`. -/
theorem c10_counterexample :
    optimize_directions_with_landmarks
        [Step.moveStep "turn right" "lobby" (5:ℝ)] ["y", "lobby", "c"]
        [("y", ((0:ℝ), (0:ℝ))), ("lobby", (500, 0)), ("c", (1000, 0))] =
      [Instr.startP "", Instr.waypoint "reach" "lobby" (5:ℝ),
        Instr.arrival "c"] ∧
      "reach" ≠ "enter" :=
  ⟨rfl, by decide⟩

/-- C5 counterexample: the claim asserts `angle_to_direction` returns
`"slightly right"` on all of [30, 60), but at angle 30 the code returns
`"keep walking straight"`, because the straight band `angle < 45 or
angle > 315` is tested first in the if/elif chain. -/
theorem c5_counterexample :
    angle_to_direction 30 = "keep walking straight" ∧
      "keep walking straight" ≠ "slightly right" := by
  constructor
  · unfold angle_to_direction
    rw [pymod_add_self_eq 30 (by norm_num) (by norm_num)]
    unfold angleBucket
    rw [if_pos]
    left
    norm_num
  · decide

/-- C5 amended: `angle_to_direction` returns `"slightly right"` exactly on
[45, 60); on the overlap [30, 45) of the `[30,60)` bucket with the straight
band [0,45), the earlier `"keep walking straight"` branch wins, because the
chain is evaluated in source order and the straight test comes first. -/
theorem c5_slightly_right_band (a b : ℝ)
    (ha1 : 45 ≤ a) (ha2 : a < 60) (hb1 : 30 ≤ b) (hb2 : b < 45) :
    angle_to_direction a = "slightly right" ∧
      angle_to_direction b = "keep walking straight" := by
  constructor
  · unfold angle_to_direction
    rw [pymod_add_self_eq a (by linarith) (by linarith)]
    unfold angleBucket
    rw [if_neg (by push_neg; constructor <;> linarith), if_pos ⟨by linarith, ha2⟩]
  · unfold angle_to_direction
    rw [pymod_add_self_eq b (by linarith) (by linarith)]
    unfold angleBucket
    rw [if_pos (Or.inl (by linarith))]

/-- C5 witness: concrete angles 50 ∈ [45,60) and 35 ∈ [30,45) exercising the
amended statement. -/
theorem c5_witness :
    (45:ℝ) ≤ 50 ∧ (50:ℝ) < 60 ∧ (30:ℝ) ≤ 35 ∧ (35:ℝ) < 45 ∧
      (angle_to_direction 50 = "slightly right" ∧
        angle_to_direction 35 = "keep walking straight") :=
  ⟨by norm_num, by norm_num, by norm_num, by norm_num,
    c5_slightly_right_band 50 35 (by norm_num) (by norm_num) (by norm_num)
      (by norm_num)⟩

end EvacAI
